import Mathlib

/-!
# ProFlex Draw — verification of the graph validation engine

This file is a shallow embedding, in Lean 4, of the validation core of the
ProFlex Draw gas-piping designer:

* the data model (`NodeType`, `PipeSize`, `AppNode`, `AppEdge`) from
  `src/unnamed/part_000` (the project's `types.ts`);
* the pipe size table `PIPE_SPECS` and the ordered size list `PIPE_ORDER`
  from `src/constants.ts`;
* the capacity formula `calculateCapacity` from `src/App.tsx` (the variant
  carrying the `length <= 0` guard described by the design document);
* the demand recursion `getFlow`, the validator `validateSystem` and the
  edge-insertion service `handleAddEdge` from `src/unnamed/part_002` (the
  application snapshot whose validator performs both the capacity check and
  the feeder/branch sizing check, which is the core the design document
  specifies).

Modelling conventions:

* JavaScript numbers that the program only ever adds and compares (BTU loads,
  flows, capacities) are embedded as `ℤ`; lengths and the pressure-drop
  setting as `ℚ`.  The one genuinely real-valued computation — the power-law
  capacity kernel `Math.pow(x, 1/exp)` — is embedded over `ℝ` with `Real.rpow`
  and `Int.floor`; bit-for-bit IEEE-754 behaviour is outside the embedding.
* `getFlow` in the source is an unguarded recursive closure.  It is embedded
  as a fuel-indexed function `getFlowF` returning `Option ℤ`, where `none`
  records fuel exhaustion.  A call chain of the source recursion that is
  longer than `edges.length` must re-enter some edge, and re-entering an edge
  reproduces the identical call, so the source recursion diverges in exactly
  that case; hence with fuel `edges.length + 1` the embedding returns
  `some v` precisely when the source terminates with value `v`, and `none`
  precisely when the source recursion runs forever.  `getFlowF_mono` (fuel
  monotonicity) makes the chosen bound canonical.
* The validator closes over `calculateCapacity`; the embedding passes that
  dependency as an explicit function argument `cap`, so theorems about the
  validator hold for every capacity oracle, including the floating-point one.
* The verdict map (a JS object keyed by edge id, built in insertion order) is
  embedded as an association list `List (String × Verdict)`.
-/

/-- Enum `NodeType` from `src/unnamed/part_000`. -/
inductive NodeType where
  | METER
  | JUNCTION
  | MANIFOLD
  | APPLIANCE
deriving DecidableEq, Repr

/-- Enum `PipeSize` from `src/unnamed/part_000` (the five nominal diameters). -/
inductive PipeSize where
  | THREE_EIGHTHS
  | HALF
  | THREE_QUARTERS
  | ONE
  | ONE_AND_QUARTER
deriving DecidableEq, BEq, Repr

/-- Record `PipeData` from `src/unnamed/part_000`: the calibration data of one pipe
size.  `coeff` and `exp` are the exact decimal constants of `src/constants.ts`
(read as rationals); `capacity` is the displayed nominal capacity. -/
structure PipeData where
  size : PipeSize
  coeff : ℚ
  exp : ℚ
  capacity : ℤ
deriving DecidableEq, Repr

/-- Table `PIPE_SPECS` from `src/constants.ts`.  In the source it is a `Record`
keyed by `PipeSize`, total on the five enum values, so it is embedded as a
total function. -/
def PIPE_SPECS : PipeSize → PipeData
  | PipeSize.THREE_EIGHTHS =>
      { size := PipeSize.THREE_EIGHTHS, coeff := 0.00002158927, exp := 2.02558185, capacity := 46000 }
  | PipeSize.HALF =>
      { size := PipeSize.HALF, coeff := 0.00000410606, exp := 2.1590935, capacity := 77000 }
  | PipeSize.THREE_QUARTERS =>
      { size := PipeSize.THREE_QUARTERS, coeff := 0.00000123682, exp := 2.00156167, capacity := 200000 }
  | PipeSize.ONE =>
      { size := PipeSize.ONE, coeff := 0.0000010746, exp := 1.77654817, capacity := 423000 }
  | PipeSize.ONE_AND_QUARTER =>
      { size := PipeSize.ONE_AND_QUARTER, coeff := 1.1678553403503e-7, exp := 1.992081557687, capacity := 662000 }

/-- List `PIPE_ORDER` from `src/constants.ts`: the fixed list of sizes from
smallest to largest; its index (`indexOf`) is the ordinal rank used by the
sizing-order rule. -/
def PIPE_ORDER : List PipeSize :=
  [PipeSize.THREE_EIGHTHS, PipeSize.HALF, PipeSize.THREE_QUARTERS,
   PipeSize.ONE, PipeSize.ONE_AND_QUARTER]

/-- Record `AppNode` from `src/unnamed/part_000`, restricted to the fields the
validation core reads (`id`, `type`, `btu`).  Positional and display
attributes (`x`, `y`, `name`, `supplyPressure`, `gasType`) are outside the
core per the design document and are omitted. -/
structure AppNode where
  id : String
  type : NodeType
  btu : ℤ
deriving DecidableEq, Repr

/-- Record `AppEdge` from `src/unnamed/part_000`.  The field `from` of the source is
a Lean keyword and is rendered `from_`. -/
structure AppEdge where
  id : String
  from_ : String
  to_ : String
  size : PipeSize
  length : ℚ
deriving DecidableEq, Repr

/-- The per-edge verdict record (fields `isValid`, `flow`, `capacity` and the optional `error`) built by
`validateSystem`. -/
structure Verdict where
  isValid : Bool
  flow : ℤ
  capacity : ℤ
  error : Option String
deriving DecidableEq, Repr

/-- Function `calculateCapacity` from `src/App.tsx`:

```js
const spec = PIPE_SPECS[size];
if (!spec || length <= 0) return 0;
const cfh = Math.pow((pressureDrop / length) / spec.coeff, 1 / spec.exp);
return Math.floor(cfh) * 1000;
```

`spec` is always found (the record is total on the enum), so the live part of
the guard is `length <= 0`.  The float kernel is embedded over `ℝ`. -/
noncomputable def calculateCapacity (pressureDrop : ℚ) (size : PipeSize) (length : ℚ) : ℤ :=
  if length ≤ 0 then 0
  else
    ⌊(((pressureDrop : ℝ) / (length : ℝ)) / ((PIPE_SPECS size).coeff : ℝ)) ^
        ((1 : ℝ) / ((PIPE_SPECS size).exp : ℝ))⌋ * 1000

/-- Sequential accumulation of the recursive flow values of a list of outbound
edges (`outboundEdges.forEach(out => { flow += getFlow(out.id); })` in the
source); `none` propagates the divergence of any recursive call. -/
def combineFlows (g : AppEdge → Option ℤ) : List AppEdge → Option ℤ
  | [] => some 0
  | out :: rest =>
    match g out, combineFlows g rest with
    | some w, some ws => some (w + ws)
    | _, _ => none

/-- Function `getFlow` from `src/unnamed/part_002` (lines 43–61), fuel-indexed:

```js
const getFlow = (edgeId) => {
  const edge = edges.find(e => e.id === edgeId);
  if (!edge) return 0;
  const targetNode = nodes.find(n => n.id === edge.to);
  if (!targetNode) return 0;
  let flow = 0;
  if (targetNode.type === NodeType.APPLIANCE) flow += targetNode.btu;
  const outboundEdges = edges.filter(e => e.from === targetNode.id);
  outboundEdges.forEach(out => { flow += getFlow(out.id); });
  return flow;
};
```

The source recursion carries no cycle guard; `none` marks fuel exhaustion,
i.e. divergence of the source (see the header comment). -/
def getFlowF : ℕ → List AppNode → List AppEdge → String → Option ℤ
  | 0, _, _, _ => none
  | fuel + 1, nodes, edges, edgeId =>
    match edges.find? (fun e => decide (e.id = edgeId)) with
    | none => some 0
    | some edge =>
      match nodes.find? (fun n => decide (n.id = edge.to_)) with
      | none => some 0
      | some targetNode =>
        match combineFlows (fun out => getFlowF fuel nodes edges out.id)
            (edges.filter (fun e => decide (e.from_ = targetNode.id))) with
        | none => none
        | some rest =>
          some ((if targetNode.type = NodeType.APPLIANCE then targetNode.btu else 0) + rest)

/-- Wrapper running `getFlowF` at the canonical fuel `edges.length + 1`, exactly
enough for every input on which the source recursion terminates. -/
def getFlow (nodes : List AppNode) (edges : List AppEdge) (edgeId : String) : Option ℤ :=
  getFlowF (edges.length + 1) nodes edges edgeId

/-- The capacity-check diagnostic of `validateSystem`
(`Capacity Exceeded: ... > ... BTU. Try shorter length or larger pipe.`).
The source formats the numbers with `toLocaleString()`; the embedding uses
plain decimal rendering. -/
def capacityErrorMsg (flow capacity : ℤ) : String :=
  "Capacity Exceeded: " ++ toString flow ++ " > " ++ toString capacity ++
    " BTU. Try shorter length or larger pipe."

/-- The display label of a pipe size (the string value of the `PipeSize` enum
in `src/unnamed/part_000`). -/
def sizeLabel : PipeSize → String
  | PipeSize.THREE_EIGHTHS => "3/8\""
  | PipeSize.HALF => "1/2\""
  | PipeSize.THREE_QUARTERS => "3/4\""
  | PipeSize.ONE => "1\""
  | PipeSize.ONE_AND_QUARTER => "1-1/4\""

/-- The sizing-order diagnostic of `validateSystem`. -/
def sizingErrorMsg (branch feeder : PipeSize) : String :=
  "Sizing violation: Branch pipe (" ++ sizeLabel branch ++
    ") cannot be larger than feeder (" ++ sizeLabel feeder ++ ")."

/-- The pure per-edge verdict construction of `validateSystem` from
`src/unnamed/part_002` (lines 63–86), once the edge's `flow` has been
computed:

```js
let isValid = true;
let error = undefined;
if (flow > capacity) { isValid = false; error = `Capacity Exceeded: ...`; }
const upstreamEdge = edges.find(e => e.to_ === edge.from);
if (upstreamEdge) {
  const upIndex = PIPE_ORDER.indexOf(upstreamEdge.size);
  const currentIndex = PIPE_ORDER.indexOf(edge.size);
  if (currentIndex > upIndex) {
    isValid = false;
    error = error ? `${error} Sizing violation: ...` : `Sizing violation: ...`;
  }
}
results[edge.id] = { isValid, flow, capacity, error };
```

The capacity function the source closes over is the explicit argument `cap`. -/
def edgeVerdict (cap : PipeSize → ℚ → ℤ) (edges : List AppEdge) (edge : AppEdge)
    (flow : ℤ) : Verdict :=
  let capacity := cap edge.size edge.length
  let capExceeded : Bool := decide (flow > capacity)
  let error₀ : Option String :=
    if capExceeded then some (capacityErrorMsg flow capacity) else none
  match edges.find? (fun e => decide (e.to_ = edge.from_)) with
  | none => ⟨!capExceeded, flow, capacity, error₀⟩
  | some upstreamEdge =>
    let upIndex := PIPE_ORDER.indexOf upstreamEdge.size
    let currentIndex := PIPE_ORDER.indexOf edge.size
    if currentIndex > upIndex then
      ⟨false, flow, capacity,
        some (match error₀ with
          | some msg => msg ++ " " ++ sizingErrorMsg edge.size upstreamEdge.size
          | none => sizingErrorMsg edge.size upstreamEdge.size)⟩
    else ⟨!capExceeded, flow, capacity, error₀⟩

/-- The `edges.forEach(...)` loop of `validateSystem`, building the verdict
list in input order; the divergence of any `getFlow` call propagates. -/
def verdictsF (fuel : ℕ) (cap : PipeSize → ℚ → ℤ) (nodes : List AppNode)
    (edges : List AppEdge) : List AppEdge → Option (List (String × Verdict))
  | [] => some []
  | edge :: rest =>
    match getFlowF fuel nodes edges edge.id, verdictsF fuel cap nodes edges rest with
    | some flow, some tail => some ((edge.id, edgeVerdict cap edges edge flow) :: tail)
    | _, _ => none

/-- Function `validateSystem` from `src/unnamed/part_002` (lines 40–89), fuel-indexed:
it walks every edge, pairing each edge id with its verdict. -/
def validateSystemF (fuel : ℕ) (cap : PipeSize → ℚ → ℤ) (nodes : List AppNode)
    (edges : List AppEdge) : Option (List (String × Verdict)) :=
  verdictsF fuel cap nodes edges edges

/-- Wrapper running `validateSystemF` at the canonical fuel (see `getFlow`). -/
def validateSystem (cap : PipeSize → ℚ → ℤ) (nodes : List AppNode)
    (edges : List AppEdge) : Option (List (String × Verdict)) :=
  validateSystemF (edges.length + 1) cap nodes edges

/-- Lookup in the verdict map (JS object property access by edge id; first
binding wins, matching object insertion semantics for unique keys). -/
def lookupVerdict (k : String) : List (String × Verdict) → Option Verdict
  | [] => none
  | (k', v) :: rest => if k' = k then some v else lookupVerdict k rest

/-- The component state the validator touches: the graph snapshot, the
pressure-drop setting and the `validation` result map (`setValidation`). -/
structure AppState where
  nodes : List AppNode
  edges : List AppEdge
  pressureDrop : ℚ
  validation : List (String × Verdict)
deriving Repr

/-- One run of `validateSystem` as a state transition: it reads
`nodes`, `edges` and (through the capacity kernel `cap`) `pressureDrop`, and
stores the fresh verdict map with `setValidation`; `none` records a run on
which the demand recursion diverges (the source call never returns). -/
def validateSystemApp (cap : ℚ → PipeSize → ℚ → ℤ) (s : AppState) : Option AppState :=
  (validateSystem (cap s.pressureDrop) s.nodes s.edges).map
    (fun results => { s with validation := results })

/-- Function `handleAddEdge` from `src/unnamed/part_002` (lines 142–173), the
edge-insertion service of the graph-mutation collaborator:

```js
if (fromId === toId) return;
const fromNode = nodes.find(n => n.id === fromId);
if (!fromNode) return;
if (edges.find(e => e.to_ === toId)) { alert(...); return; }
if (fromNode.type === NodeType.JUNCTION) {
  if (edges.filter(e => e.from === fromId).length >= 2) { alert(...); return; }
}
if (fromNode.type === NodeType.APPLIANCE) { alert(...); return; }
setEdges(prev => [...prev, { id, from: fromId, to: toId, size: selectedPipeSize, length: 10 }]);
```

The randomly generated id is the explicit argument `newId`. -/
def handleAddEdge (nodes : List AppNode) (edges : List AppEdge)
    (fromId toId newId : String) (selectedPipeSize : PipeSize) : List AppEdge :=
  if fromId = toId then edges
  else
    match nodes.find? (fun n => decide (n.id = fromId)) with
    | none => edges
    | some fromNode =>
      if (edges.find? (fun e => decide (e.to_ = toId))).isSome then edges
      else if fromNode.type = NodeType.JUNCTION ∧
          2 ≤ (edges.filter (fun e => decide (e.from_ = fromId))).length then edges
      else if fromNode.type = NodeType.APPLIANCE then edges
      else edges ++ [⟨newId, fromId, toId, selectedPipeSize, 10⟩]

/-- The structural invariants the validator assumes of the graph (design
document §3 and §6): at most one inbound edge per node, at most two outbound
edges per `JUNCTION`, no outbound edge from an `APPLIANCE`, no self-loop. -/
def GraphInvariants (nodes : List AppNode) (edges : List AppEdge) : Prop :=
  List.Pairwise (fun e₁ e₂ => e₁.to_ ≠ e₂.to_) edges ∧
  (∀ n ∈ nodes, n.type = NodeType.JUNCTION →
    (edges.filter (fun e => decide (e.from_ = n.id))).length ≤ 2) ∧
  (∀ n ∈ nodes, n.type = NodeType.APPLIANCE → ∀ e ∈ edges, e.from_ ≠ n.id) ∧
  (∀ e ∈ edges, e.from_ ≠ e.to_)

/-- Reachability along edges: `Reachable edges a b` holds when node id `b` is
in the subtree hanging from node id `a` (the reflexive-transitive closure of
the edge relation). -/
inductive Reachable (edges : List AppEdge) : String → String → Prop where
  | refl (a : String) : Reachable edges a a
  | step {a : String} {e : AppEdge} :
      Reachable edges a e.from_ → e ∈ edges → Reachable edges a e.to_

/-- Divergence of the source `getFlow` on an edge id: no amount of fuel makes
the embedded recursion produce a value. -/
def getFlowDiverges (nodes : List AppNode) (edges : List AppEdge) (edgeId : String) : Prop :=
  ∀ fuel, getFlowF fuel nodes edges edgeId = none

/-- Divergence of the source `validateSystem` on a graph snapshot. -/
def validateDiverges (cap : PipeSize → ℚ → ℤ) (nodes : List AppNode)
    (edges : List AppEdge) : Prop :=
  ∀ fuel, validateSystemF fuel cap nodes edges = none

/-! ## Basic lemmas about the embedded operations -/

/-- Characterisation of a successful `combineFlows` run: every recursive call
succeeded and the result is the sum of the returned values. -/
theorem combineFlows_eq_some {g : AppEdge → Option ℤ} :
    ∀ {l : List AppEdge} {s : ℤ}, combineFlows g l = some s ↔
      ∃ ws : List ℤ, List.Forall₂ (fun o w => g o = some w) l ws ∧ s = ws.sum := by
  intro l
  induction l with
  | nil =>
    intro s
    constructor
    · intro h
      refine ⟨[], List.Forall₂.nil, ?_⟩
      simpa [combineFlows] using h.symm
    · rintro ⟨ws, hws, rfl⟩
      cases hws
      simp [combineFlows]
  | cons o rest ih =>
    intro s
    constructor
    · intro h
      simp only [combineFlows] at h
      cases hgo : g o with
      | none => simp [hgo] at h
      | some w =>
        cases hrest : combineFlows g rest with
        | none => simp [hgo, hrest] at h
        | some ws₀ =>
          simp only [hgo, hrest] at h
          obtain ⟨ws, hws, rfl⟩ := ih.mp hrest
          refine ⟨w :: ws, List.Forall₂.cons hgo hws, ?_⟩
          simpa [List.sum_cons] using h.symm
    · rintro ⟨ws, hws, rfl⟩
      cases hws with
      | cons hgo htail =>
        simp [combineFlows, hgo, ih.mpr ⟨_, htail, rfl⟩]

/-- Fuel monotonicity: a value computed with some fuel persists at any larger
fuel, so the canonical fuel `edges.length + 1` is as good as any. -/
theorem getFlowF_mono : ∀ fuel fuel', fuel ≤ fuel' → ∀ nodes edges eid v,
    getFlowF fuel nodes edges eid = some v → getFlowF fuel' nodes edges eid = some v := by
  intro fuel
  induction fuel with
  | zero => intro fuel' _ nodes edges eid v h; simp [getFlowF] at h
  | succ f ih =>
    intro fuel' hle nodes edges eid v h
    obtain ⟨f', rfl⟩ : ∃ f', fuel' = f' + 1 := ⟨fuel' - 1, by omega⟩
    have hff' : f ≤ f' := by omega
    simp only [getFlowF] at h ⊢
    cases hfind : edges.find? (fun e => decide (e.id = eid)) with
    | none => simp only [hfind] at h ⊢; exact h
    | some edge =>
      simp only [hfind] at h ⊢
      cases hnode : nodes.find? (fun n => decide (n.id = edge.to_)) with
      | none => simp only [hnode] at h ⊢; exact h
      | some t =>
        simp only [hnode] at h ⊢
        cases hcf : combineFlows (fun out => getFlowF f nodes edges out.id)
            (edges.filter (fun e => decide (e.from_ = t.id))) with
        | none => simp only [hcf] at h; cases h
        | some rest =>
          simp only [hcf] at h
          obtain ⟨ws, hws, rfl⟩ := combineFlows_eq_some.mp hcf
          have hws' : List.Forall₂ (fun o w => getFlowF f' nodes edges o.id = some w)
              (edges.filter (fun e => decide (e.from_ = t.id))) ws :=
            hws.imp (fun o w ho => ih f' hff' nodes edges o.id w ho)
          have hcf' : combineFlows (fun out => getFlowF f' nodes edges out.id)
              (edges.filter (fun e => decide (e.from_ = t.id))) = some ws.sum :=
            combineFlows_eq_some.mpr ⟨ws, hws', rfl⟩
          simp only [hcf']
          exact h

/-- Characterisation of a successful validator run: verdicts align with the
edge list pointwise, each edge paired with the verdict built from its flow. -/
theorem verdictsF_eq_some {fuel : ℕ} {cap : PipeSize → ℚ → ℤ} {nodes : List AppNode}
    {edges : List AppEdge} :
    ∀ {l : List AppEdge} {m : List (String × Verdict)},
      verdictsF fuel cap nodes edges l = some m ↔
        List.Forall₂ (fun e p => ∃ flow, getFlowF fuel nodes edges e.id = some flow ∧
          p = (e.id, edgeVerdict cap edges e flow)) l m := by
  intro l
  induction l with
  | nil =>
    intro m
    constructor
    · intro h
      simp only [verdictsF] at h
      cases h
      exact List.Forall₂.nil
    · intro h
      cases h
      rfl
  | cons e rest ih =>
    intro m
    constructor
    · intro h
      simp only [verdictsF] at h
      cases hflow : getFlowF fuel nodes edges e.id with
      | none => simp [hflow] at h
      | some flow =>
        cases htail : verdictsF fuel cap nodes edges rest with
        | none => simp [hflow, htail] at h
        | some tail =>
          simp only [hflow, htail] at h
          cases h
          exact List.Forall₂.cons ⟨flow, hflow, rfl⟩ (ih.mp htail)
    · intro h
      cases h with
      | cons hhead htail =>
        obtain ⟨flow, hflow, rfl⟩ := hhead
        simp [verdictsF, hflow, ih.mpr htail]

/-- The key of each verdict entry is the id of the corresponding edge, so the
verdict map's key list is exactly the edge-id list. -/
theorem forall₂_keys {R : AppEdge → (String × Verdict) → Prop}
    (hkey : ∀ e p, R e p → p.1 = e.id) :
    ∀ {l : List AppEdge} {m : List (String × Verdict)}, List.Forall₂ R l m →
      m.map Prod.fst = l.map AppEdge.id := by
  intro l m h
  induction h with
  | nil => rfl
  | cons hab _ ih => simp [ih, hkey _ _ hab]

/-- With pairwise-distinct keys, `find?` by key recovers exactly the listed
element. -/
theorem find?_key_of_nodup {α : Type} (key : α → String) (l : List α)
    (hnd : (l.map key).Nodup) (a : α) (ha : a ∈ l) :
    l.find? (fun x => decide (key x = key a)) = some a := by
  induction l with
  | nil => cases ha
  | cons x rest ih =>
    simp only [List.map_cons, List.nodup_cons] at hnd
    rcases List.mem_cons.mp ha with rfl | ha'
    · simp [List.find?]
    · have hx : ¬ (key x = key a) := by
        intro hcontra
        exact hnd.1 (hcontra ▸ List.mem_map_of_mem key ha')
      rw [List.find?_cons_of_neg _ (by simpa using hx)]
      exact ih hnd.2 ha'

/-- Looking a key up in a verdict map aligned with an edge list of
pairwise-distinct ids recovers that edge's own verdict entry. -/
theorem lookupVerdict_forall₂ {R : AppEdge → (String × Verdict) → Prop}
    (hkey : ∀ e p, R e p → p.1 = e.id) :
    ∀ {l : List AppEdge} {m : List (String × Verdict)}, List.Forall₂ R l m →
      (l.map AppEdge.id).Nodup →
      ∀ e ∈ l, ∀ v, lookupVerdict e.id m = some v → R e (e.id, v) := by
  intro l m h
  induction h with
  | nil => intro _ e he; cases he
  | @cons a b l₁ l₂ hab htail ih =>
    intro hnd e he v hv
    simp only [List.map_cons, List.nodup_cons] at hnd
    rcases List.mem_cons.mp he with rfl | he'
    · have hb1 : b.1 = e.id := hkey _ _ hab
      rw [lookupVerdict, if_pos hb1] at hv
      cases hv
      have : b = (e.id, b.2) := by rw [← hb1]
      rwa [← this]
    · have hne : b.1 ≠ e.id := by
        rw [hkey _ _ hab]
        intro hcontra
        exact hnd.1 (hcontra ▸ List.mem_map_of_mem AppEdge.id he')
      rw [lookupVerdict, if_neg hne] at hv
      exact ih hnd.2 e he' v hv

/-- Transitivity of reachability. -/
theorem Reachable.trans {edges : List AppEdge} {a b c : String}
    (h₁ : Reachable edges a b) (h₂ : Reachable edges b c) : Reachable edges a c := by
  induction h₂ with
  | refl => exact h₁
  | step _ hmem ih => exact Reachable.step ih hmem

/-! ## The verdict of a single edge -/

/-- The `flow` field stored in a verdict is the flow computed for the edge. -/
theorem edgeVerdict_flow (cap : PipeSize → ℚ → ℤ) (edges : List AppEdge)
    (edge : AppEdge) (flow : ℤ) : (edgeVerdict cap edges edge flow).flow = flow := by
  simp only [edgeVerdict]
  split
  · rfl
  · split
    · rfl
    · rfl

/-- The `capacity` field stored in a verdict is the capacity computed from the
edge's size and length. -/
theorem edgeVerdict_capacity (cap : PipeSize → ℚ → ℤ) (edges : List AppEdge)
    (edge : AppEdge) (flow : ℤ) :
    (edgeVerdict cap edges edge flow).capacity = cap edge.size edge.length := by
  simp only [edgeVerdict]
  split
  · rfl
  · split
    · rfl
    · rfl

/-- Characterisation of the `isValid` flag: under the single-inbound-edge
invariant the validator assumes, the verdict is valid exactly when the
capacity check passes and no feeder edge is strictly smaller in rank. -/
theorem edgeVerdict_isValid_iff (cap : PipeSize → ℚ → ℤ) (edges : List AppEdge)
    (edge : AppEdge) (flow : ℤ)
    (hinb : ∀ e₁ ∈ edges, ∀ e₂ ∈ edges, e₁.to_ = e₂.to_ → e₁ = e₂) :
    ((edgeVerdict cap edges edge flow).isValid = true ↔
      (flow ≤ cap edge.size edge.length ∧
        ¬ ∃ f ∈ edges, f.to_ = edge.from_ ∧
            PIPE_ORDER.indexOf f.size < PIPE_ORDER.indexOf edge.size)) := by
  simp only [edgeVerdict]
  cases hfind : edges.find? (fun e => decide (e.to_ = edge.from_)) with
  | none =>
    have hno : ¬ ∃ f ∈ edges, f.to_ = edge.from_ ∧
        PIPE_ORDER.indexOf f.size < PIPE_ORDER.indexOf edge.size := by
      rintro ⟨f, hf, hto, -⟩
      have := List.find?_eq_none.mp hfind f hf
      simp only [decide_eq_true_eq] at this
      exact this hto
    simp [hno, not_lt]
  | some up =>
    have hup : up ∈ edges := List.mem_of_find?_eq_some hfind
    have hupto : up.to_ = edge.from_ := by
      have := List.find?_some hfind
      simpa using this
    by_cases hrank : PIPE_ORDER.indexOf up.size < PIPE_ORDER.indexOf edge.size
    · have hex : ∃ f ∈ edges, f.to_ = edge.from_ ∧
          PIPE_ORDER.indexOf f.size < PIPE_ORDER.indexOf edge.size := ⟨up, hup, hupto, hrank⟩
      simp [gt_iff_lt, hrank, hex]
    · have hno : ¬ ∃ f ∈ edges, f.to_ = edge.from_ ∧
          PIPE_ORDER.indexOf f.size < PIPE_ORDER.indexOf edge.size := by
        rintro ⟨f, hf, hto, hr⟩
        have : f = up := hinb f hf up hup (hto.trans hupto.symm)
        exact hrank (this ▸ hr)
      simp [gt_iff_lt, hrank, hno, not_lt]

/-! ## Claim C1: validity is the conjunction of the two checks -/

/-- C1.  For every edge `E` in the graph passed to `validateSystem` (a graph
satisfying the single-inbound-edge invariant the validator assumes, with
pairwise-distinct edge ids), the verdict's `isValid` is `true` iff the
capacity check passes (`flow ≤ capacity`) and the sizing-order check passes,
where the sizing-order check fails iff some upstream feeder edge `F` (an edge
whose `to` equals `E`'s `from`) exists with `E`'s size rank in the pipe order
strictly greater than `F`'s; an edge with no feeder undergoes only the
capacity check, and a branch strictly larger than its feeder is marked
invalid regardless of the capacity outcome.  Stated for every fuel and every
capacity oracle `cap`, hence in particular for the floating-point kernel. -/
theorem validateSystem_isValid_characterization
    (fuel : ℕ) (cap : PipeSize → ℚ → ℤ) (nodes : List AppNode) (edges : List AppEdge)
    (m : List (String × Verdict))
    (hm : validateSystemF fuel cap nodes edges = some m)
    (hids : (edges.map AppEdge.id).Nodup)
    (hinb : ∀ e₁ ∈ edges, ∀ e₂ ∈ edges, e₁.to_ = e₂.to_ → e₁ = e₂)
    (edge : AppEdge) (he : edge ∈ edges) (v : Verdict)
    (hv : lookupVerdict edge.id m = some v) :
    (v.isValid = true ↔
      (v.flow ≤ v.capacity ∧
        ¬ ∃ f ∈ edges, f.to_ = edge.from_ ∧
            PIPE_ORDER.indexOf f.size < PIPE_ORDER.indexOf edge.size)) ∧
    ((¬ ∃ f ∈ edges, f.to_ = edge.from_) → (v.isValid = true ↔ v.flow ≤ v.capacity)) ∧
    (∀ f ∈ edges, f.to_ = edge.from_ →
      PIPE_ORDER.indexOf f.size < PIPE_ORDER.indexOf edge.size → v.isValid = false) := by
  have hfa := verdictsF_eq_some.mp hm
  have hR := lookupVerdict_forall₂
    (R := fun e p => ∃ flow, getFlowF fuel nodes edges e.id = some flow ∧
      p = (e.id, edgeVerdict cap edges e flow))
    (fun e p hp => by obtain ⟨flow, -, rfl⟩ := hp; rfl)
    hfa hids edge he v hv
  obtain ⟨flow, -, hpair⟩ := hR
  have hveq : v = edgeVerdict cap edges edge flow := congrArg Prod.snd hpair
  subst hveq
  rw [edgeVerdict_flow, edgeVerdict_capacity]
  have hiff := edgeVerdict_isValid_iff cap edges edge flow hinb
  refine ⟨hiff, ?_, ?_⟩
  · intro hnof
    rw [hiff]
    constructor
    · exact fun h => h.1
    · intro h
      refine ⟨h, ?_⟩
      rintro ⟨f, hf, hto, -⟩
      exact hnof ⟨f, hf, hto⟩
  · intro f hf hto hr
    cases hval : (edgeVerdict cap edges edge flow).isValid
    · rfl
    · exact absurd ⟨f, hf, hto, hr⟩ (hiff.mp hval).2

/-- A two-node sample system: a meter `a` feeding a 40000 BTU appliance `b`
through the single pipe `e1`. -/
def sampleNodes : List AppNode :=
  [⟨"a", NodeType.METER, 0⟩, ⟨"b", NodeType.APPLIANCE, 40000⟩]

/-- The single edge of the sample system. -/
def sampleEdges : List AppEdge := [⟨"e1", "a", "b", PipeSize.HALF, 10⟩]

/-- A concrete capacity oracle for witnesses: the reference capacity of the
sample pipe (`1/2"` at 10 ft under a 0.5 in. w.c. drop). -/
def sampleCap : PipeSize → ℚ → ℤ := fun _ _ => 77000

/-- Witness for C1 on the sample system: the verdict of `e1` carries
`flow = 40000`, `capacity = 77000`, and its `isValid` flag is characterised
exactly as the claim states. -/
theorem validateSystem_isValid_characterization_witness :
    ((Verdict.mk true 40000 77000 none).isValid = true ↔
      ((Verdict.mk true 40000 77000 none).flow ≤ (Verdict.mk true 40000 77000 none).capacity ∧
        ¬ ∃ f ∈ sampleEdges, f.to_ = (AppEdge.mk "e1" "a" "b" PipeSize.HALF 10).from_ ∧
            PIPE_ORDER.indexOf f.size <
              PIPE_ORDER.indexOf (AppEdge.mk "e1" "a" "b" PipeSize.HALF 10).size)) ∧
    ((¬ ∃ f ∈ sampleEdges, f.to_ = (AppEdge.mk "e1" "a" "b" PipeSize.HALF 10).from_) →
      ((Verdict.mk true 40000 77000 none).isValid = true ↔
        (Verdict.mk true 40000 77000 none).flow ≤ (Verdict.mk true 40000 77000 none).capacity)) ∧
    (∀ f ∈ sampleEdges, f.to_ = (AppEdge.mk "e1" "a" "b" PipeSize.HALF 10).from_ →
      PIPE_ORDER.indexOf f.size <
          PIPE_ORDER.indexOf (AppEdge.mk "e1" "a" "b" PipeSize.HALF 10).size →
      (Verdict.mk true 40000 77000 none).isValid = false) :=
  validateSystem_isValid_characterization 2 sampleCap sampleNodes sampleEdges
    [("e1", Verdict.mk true 40000 77000 none)] (by decide) (by decide) (by decide)
    (AppEdge.mk "e1" "a" "b" PipeSize.HALF 10) (by decide)
    (Verdict.mk true 40000 77000 none) (by decide)

/-! ## Claim C3: the downstream-demand recursion -/

/-- Helper: a pointwise successful run maps back to its stored values. -/
theorem forall₂_map_getD {g : AppEdge → Option ℤ} :
    ∀ {l : List AppEdge} {ws : List ℤ}, List.Forall₂ (fun o w => g o = some w) l ws →
      l.map (fun o => (g o).getD 0) = ws := by
  intro l ws h
  induction h with
  | nil => rfl
  | cons hab _ ih => simp [hab, ih]

/-- Helper: each right element of a `Forall₂` run is related to some left
element. -/
theorem forall₂_mem_right {α β : Type} {R : α → β → Prop} :
    ∀ {l : List α} {ws : List β}, List.Forall₂ R l ws → ∀ w ∈ ws, ∃ o ∈ l, R o w := by
  intro l ws h
  induction h with
  | nil => intro w hw; cases hw
  | cons hab _ ih =>
    intro w hw
    rcases List.mem_cons.mp hw with rfl | hw'
    · exact ⟨_, List.mem_cons_self _ _, hab⟩
    · obtain ⟨o, ho, hR⟩ := ih w hw'
      exact ⟨o, List.mem_cons_of_mem _ ho, hR⟩

/-- Helper: each left element of a `Forall₂` run is related to some right
element. -/
theorem forall₂_mem_left {α β : Type} {R : α → β → Prop} :
    ∀ {l : List α} {ws : List β}, List.Forall₂ R l ws → ∀ o ∈ l, ∃ w ∈ ws, R o w := by
  intro l ws h
  induction h with
  | nil => intro o ho; cases ho
  | cons hab _ ih =>
    intro o ho
    rcases List.mem_cons.mp ho with rfl | ho'
    · exact ⟨_, List.mem_cons_self _ _, hab⟩
    · obtain ⟨w, hw, hR⟩ := ih o ho'
      exact ⟨w, List.mem_cons_of_mem _ hw, hR⟩

/-- If every appliance reachable through the looked-up edge's destination has
zero demand, the computed flow is zero (whenever the recursion terminates). -/
theorem getFlowF_eq_zero_of_no_demand :
    ∀ (fuel : ℕ) (nodes : List AppNode) (edges : List AppEdge),
      (edges.map AppEdge.id).Nodup →
      ∀ (eid : String) (v : ℤ), getFlowF fuel nodes edges eid = some v →
      (∀ edge, edges.find? (fun e => decide (e.id = eid)) = some edge →
        ∀ n ∈ nodes, n.type = NodeType.APPLIANCE → Reachable edges edge.to_ n.id → n.btu = 0) →
      v = 0 := by
  intro fuel
  induction fuel with
  | zero => intro nodes edges _ eid v h; simp [getFlowF] at h
  | succ f ih =>
    intro nodes edges hnd eid v h hdem
    simp only [getFlowF] at h
    cases hfind : edges.find? (fun e => decide (e.id = eid)) with
    | none => simp only [hfind] at h; cases h; rfl
    | some edge =>
      simp only [hfind] at h
      cases hnode : nodes.find? (fun n => decide (n.id = edge.to_)) with
      | none => simp only [hnode] at h; cases h; rfl
      | some t =>
        simp only [hnode] at h
        cases hcf : combineFlows (fun out => getFlowF f nodes edges out.id)
            (edges.filter (fun e => decide (e.from_ = t.id))) with
        | none => simp only [hcf] at h; cases h
        | some rest =>
          simp only [hcf] at h
          have ht_mem : t ∈ nodes := List.mem_of_find?_eq_some hnode
          have ht_id : t.id = edge.to_ := by simpa using List.find?_some hnode
          have hbase : (if t.type = NodeType.APPLIANCE then t.btu else 0) = 0 := by
            by_cases ha : t.type = NodeType.APPLIANCE
            · rw [if_pos ha]
              refine hdem edge hfind t ht_mem ha ?_
              rw [ht_id]
              exact Reachable.refl edge.to_
            · rw [if_neg ha]
          obtain ⟨ws, hws, hrest⟩ := combineFlows_eq_some.mp hcf
          have hws0 : ∀ w ∈ ws, w = 0 := by
            intro w hw
            obtain ⟨out, hout, hgw⟩ := forall₂_mem_right hws w hw
            obtain ⟨hout_mem, hout_from⟩ := List.mem_filter.mp hout
            have hout_from' : out.from_ = t.id := by simpa using hout_from
            refine ih nodes edges hnd out.id w hgw ?_
            intro edge' hfind' n hn ha hreach
            have : edges.find? (fun e => decide (e.id = out.id)) = some out :=
              find?_key_of_nodup AppEdge.id edges hnd out hout_mem
            rw [this] at hfind'
            cases hfind'
            have hstep : Reachable edges edge.to_ out.to_ := by
              refine Reachable.step ?_ hout_mem
              rw [hout_from', ht_id]
              exact Reachable.refl edge.to_
            exact hdem edge hfind n hn ha (hstep.trans hreach)
          have hsum : ws.sum = 0 := List.sum_eq_zero hws0
          cases h
          simp [hbase, hrest, hsum]

/-- C3.  For every edge `E` (in a graph with pairwise-distinct edge ids) whose
destination node exists, a terminating flow computation returns exactly the
destination node's `btu` if it is an `APPLIANCE` (0 otherwise) plus the sum of
the recursively computed flows of every edge whose `from` equals `E`'s
destination — those recursive computations all terminating as well — and
whenever every appliance in the subtree reachable from `E`'s destination
carries zero demand, the flow is 0. -/
theorem getFlow_recursive_characterization
    (nodes : List AppNode) (edges : List AppEdge)
    (hids : (edges.map AppEdge.id).Nodup)
    (edge : AppEdge) (he : edge ∈ edges) (t : AppNode)
    (ht : nodes.find? (fun n => decide (n.id = edge.to_)) = some t)
    (v : ℤ) (hv : getFlow nodes edges edge.id = some v) :
    (v = (if t.type = NodeType.APPLIANCE then t.btu else 0) +
        ((edges.filter (fun out => decide (out.from_ = t.id))).map
          (fun out => (getFlow nodes edges out.id).getD 0)).sum) ∧
    (∀ out ∈ edges.filter (fun out => decide (out.from_ = t.id)),
      (getFlow nodes edges out.id).isSome = true) ∧
    ((∀ n ∈ nodes, n.type = NodeType.APPLIANCE → Reachable edges edge.to_ n.id → n.btu = 0) →
      v = 0) := by
  have hfind : edges.find? (fun e => decide (e.id = edge.id)) = some edge :=
    find?_key_of_nodup AppEdge.id edges hids edge he
  have hv' := hv
  simp only [getFlow, getFlowF, hfind, ht] at hv'
  cases hcf : combineFlows (fun out => getFlowF edges.length nodes edges out.id)
      (edges.filter (fun e => decide (e.from_ = t.id))) with
  | none => simp only [hcf] at hv'; cases hv'
  | some rest =>
    simp only [hcf] at hv'
    obtain ⟨ws, hws, hrest⟩ := combineFlows_eq_some.mp hcf
    have hws' : List.Forall₂ (fun o w => getFlow nodes edges o.id = some w)
        (edges.filter (fun e => decide (e.from_ = t.id))) ws :=
      hws.imp (fun o w ho =>
        getFlowF_mono edges.length (edges.length + 1) (Nat.le_succ _) nodes edges o.id w ho)
    refine ⟨?_, ?_, ?_⟩
    · cases hv'
      rw [hrest, forall₂_map_getD hws']
    · intro out hout
      obtain ⟨w, -, hw⟩ := forall₂_mem_left hws' out hout
      rw [hw]
      rfl
    · intro hzero
      refine getFlowF_eq_zero_of_no_demand (edges.length + 1) nodes edges hids edge.id v hv ?_
      intro edge' hfind' n hn ha hreach
      rw [hfind] at hfind'
      cases hfind'
      exact hzero n hn ha hreach

/-- A sample system whose appliance carries zero demand: meter `a` feeding a
0 BTU appliance `b` through the pipe `e1`. -/
def zeroNodes : List AppNode :=
  [⟨"a", NodeType.METER, 0⟩, ⟨"b", NodeType.APPLIANCE, 0⟩]

/-- The single edge of the zero-demand sample system. -/
def zeroEdges : List AppEdge := [⟨"e1", "a", "b", PipeSize.HALF, 10⟩]

/-- Witness for C3 on the zero-demand sample system: the flow of `e1` is the
appliance's demand plus the (empty) sum of downstream flows, and it is 0
because the subtree's appliances all carry zero demand. -/
theorem getFlow_recursive_characterization_witness :
    ((0 : ℤ) = (if (AppNode.mk "b" NodeType.APPLIANCE 0).type = NodeType.APPLIANCE then
        (AppNode.mk "b" NodeType.APPLIANCE 0).btu else 0) +
        ((zeroEdges.filter (fun out => decide (out.from_ = (AppNode.mk "b" NodeType.APPLIANCE 0).id))).map
          (fun out => (getFlow zeroNodes zeroEdges out.id).getD 0)).sum) ∧
    (∀ out ∈ zeroEdges.filter (fun out => decide (out.from_ = (AppNode.mk "b" NodeType.APPLIANCE 0).id)),
      (getFlow zeroNodes zeroEdges out.id).isSome = true) ∧
    ((∀ n ∈ zeroNodes, n.type = NodeType.APPLIANCE →
        Reachable zeroEdges (AppEdge.mk "e1" "a" "b" PipeSize.HALF 10).to_ n.id → n.btu = 0) →
      (0 : ℤ) = 0) :=
  getFlow_recursive_characterization zeroNodes zeroEdges (by decide)
    (AppEdge.mk "e1" "a" "b" PipeSize.HALF 10) (by decide)
    (AppNode.mk "b" NodeType.APPLIANCE 0) (by decide) 0 (by decide)

/-! ## Claims C5 and C4: behaviour on cyclic and malformed graphs -/

/-- A two-edge cycle: junctions `a` and `b` joined by pipes `e1 : a → b` and
`e2 : b → a`.  This violates the rooted-forest invariant, which well-formed
input never does, but is expressible input to the validator. -/
def cycleNodes : List AppNode := [⟨"a", NodeType.JUNCTION, 0⟩, ⟨"b", NodeType.JUNCTION, 0⟩]

/-- The two edges of the cyclic graph. -/
def cycleEdges : List AppEdge :=
  [⟨"e1", "a", "b", PipeSize.HALF, 10⟩, ⟨"e2", "b", "a", PipeSize.HALF, 10⟩]

/-- On the two-edge cycle, the demand recursion exhausts any amount of fuel
from either edge: each unfolding consumes one unit and recurses on the other
edge, so no base case is ever reached. -/
theorem getFlowF_cycle_none (fuel : ℕ) :
    getFlowF fuel cycleNodes cycleEdges "e1" = none ∧
      getFlowF fuel cycleNodes cycleEdges "e2" = none := by
  induction fuel with
  | zero => exact ⟨rfl, rfl⟩
  | succ f ih =>
    constructor
    · have key : getFlowF (f + 1) cycleNodes cycleEdges "e1" =
          match combineFlows (fun out => getFlowF f cycleNodes cycleEdges out.id)
            (List.filter (fun e => decide (e.from_ = "b")) cycleEdges) with
          | none => none
          | some rest =>
            some ((if NodeType.JUNCTION = NodeType.APPLIANCE then (0 : ℤ) else 0) + rest) := rfl
      rw [key]
      have key2 : List.filter (fun e => decide (e.from_ = "b")) cycleEdges =
          [⟨"e2", "b", "a", PipeSize.HALF, 10⟩] := rfl
      rw [key2]
      simp only [combineFlows, ih.2]
    · have key : getFlowF (f + 1) cycleNodes cycleEdges "e2" =
          match combineFlows (fun out => getFlowF f cycleNodes cycleEdges out.id)
            (List.filter (fun e => decide (e.from_ = "a")) cycleEdges) with
          | none => none
          | some rest =>
            some ((if NodeType.JUNCTION = NodeType.APPLIANCE then (0 : ℤ) else 0) + rest) := rfl
      rw [key]
      have key2 : List.filter (fun e => decide (e.from_ = "a")) cycleEdges =
          [⟨"e1", "a", "b", PipeSize.HALF, 10⟩] := rfl
      rw [key2]
      simp only [combineFlows, ih.1]

/-- C5 (code bug).  The claim — echoing the design document's requirement that
an implementation MUST guard against cycles defensively — says the
downstream-demand computation terminates on every input graph including
cycles.  The source `getFlow` carries no visited set or depth cap: on the
two-edge cycle its recursion never reaches a base case, whatever the fuel, so
the computation diverges (in the browser, a stack overflow) instead of
terminating. -/
theorem getFlow_no_cycle_guard_diverges :
    getFlowDiverges cycleNodes cycleEdges "e1" ∧ getFlowDiverges cycleNodes cycleEdges "e2" :=
  ⟨fun fuel => (getFlowF_cycle_none fuel).1, fun fuel => (getFlowF_cycle_none fuel).2⟩

/-- C4 (counterexample).  On the cyclic graph the whole validator call
diverges — its first `getFlow` call never returns — so `validateSystem` does
not return a verdict map for *every* input graph, refuting the claim's
universal form at this concrete input.  Stated with the program's own
capacity kernel at the default pressure drop (the divergence happens before
any capacity is consulted). -/
theorem validateSystem_cycle_diverges :
    validateDiverges (calculateCapacity (1/2)) cycleNodes cycleEdges := by
  intro fuel
  have h1 := (getFlowF_cycle_none fuel).1
  simp only [validateSystemF, verdictsF]
  rw [h1]

/-- C4 (amended).  On every input on which the demand recursion terminates —
in particular every graph without a directed cycle, including the malformed
cases the claim lists — `validateSystem` returns a complete verdict map whose
key list is exactly the input edge-id list (every edge present, no stale or
extra entries), and an edge whose destination node is missing from the node
set gets flow 0. -/
theorem validateSystem_total_verdict_map
    (fuel : ℕ) (cap : PipeSize → ℚ → ℤ) (nodes : List AppNode) (edges : List AppEdge)
    (m : List (String × Verdict))
    (hm : validateSystemF fuel cap nodes edges = some m)
    (hids : (edges.map AppEdge.id).Nodup) :
    m.map Prod.fst = edges.map AppEdge.id ∧
    (∀ edge ∈ edges, nodes.find? (fun n => decide (n.id = edge.to_)) = none →
      ∀ v, lookupVerdict edge.id m = some v → v.flow = 0) := by
  have hfa := verdictsF_eq_some.mp hm
  have hkey : ∀ (e : AppEdge) (p : String × Verdict),
      (∃ flow, getFlowF fuel nodes edges e.id = some flow ∧
        p = (e.id, edgeVerdict cap edges e flow)) → p.1 = e.id :=
    fun e p hp => by obtain ⟨flow, -, rfl⟩ := hp; rfl
  refine ⟨forall₂_keys hkey hfa, ?_⟩
  intro edge he hnode v hv
  obtain ⟨flow, hflow, hpair⟩ := lookupVerdict_forall₂ hkey hfa hids edge he v hv
  have hveq : v = edgeVerdict cap edges edge flow := congrArg Prod.snd hpair
  subst hveq
  rw [edgeVerdict_flow]
  have hfind : edges.find? (fun e => decide (e.id = edge.id)) = some edge :=
    find?_key_of_nodup AppEdge.id edges hids edge he
  cases fuel with
  | zero => simp [getFlowF] at hflow
  | succ f =>
    simp only [getFlowF, hfind, hnode] at hflow
    cases hflow
    rfl

/-- A malformed sample system: meter `a` with a single pipe `e1` whose
destination id `missing` has no node. -/
def danglingNodes : List AppNode := [⟨"a", NodeType.METER, 0⟩]

/-- The dangling edge of the malformed sample system. -/
def danglingEdges : List AppEdge := [⟨"e1", "a", "missing", PipeSize.HALF, 10⟩]

/-- A trivial capacity oracle for witnesses. -/
def zeroCap : PipeSize → ℚ → ℤ := fun _ _ => 0

/-- Witness for the amended C4 on the malformed sample system: the verdict map
covers exactly the edge `e1`, whose missing destination degrades to flow 0. -/
theorem validateSystem_total_verdict_map_witness :
    ([("e1", Verdict.mk true 0 0 none)].map Prod.fst = danglingEdges.map AppEdge.id) ∧
    (∀ edge ∈ danglingEdges,
      danglingNodes.find? (fun n => decide (n.id = edge.to_)) = none →
      ∀ v, lookupVerdict edge.id [("e1", Verdict.mk true 0 0 none)] = some v → v.flow = 0) :=
  validateSystem_total_verdict_map 2 zeroCap danglingNodes danglingEdges
    [("e1", Verdict.mk true 0 0 none)] (by decide) (by decide)

/-! ## Claims C8 and C9: purity and frame of the validator -/

/-- C9.  Validation never mutates the graph it is given: after any completed
`validateSystem` run, the nodes, the edges (all fields included) and the
pressure-drop setting of the snapshot are unchanged — the call's only effect
is storing the freshly built verdict map. -/
theorem validateSystem_preserves_graph (cap : ℚ → PipeSize → ℚ → ℤ) (s s' : AppState)
    (h : validateSystemApp cap s = some s') :
    s'.nodes = s.nodes ∧ s'.edges = s.edges ∧ s'.pressureDrop = s.pressureDrop := by
  simp only [validateSystemApp, Option.map_eq_some'] at h
  obtain ⟨r, -, rfl⟩ := h
  exact ⟨rfl, rfl, rfl⟩

/-- C8.  Validation is a deterministic pure function of `nodes`, `edges` and
`pressureDrop`: two completed runs from snapshots agreeing on those inputs
store identical verdict maps (whatever verdict map was previously stored),
and re-running validation on an unchanged snapshot reproduces the state —
there is no hidden state. -/
theorem validateSystem_deterministic_idempotent (cap : ℚ → PipeSize → ℚ → ℤ)
    (s₁ s₂ s₁' s₂' : AppState)
    (h₁ : validateSystemApp cap s₁ = some s₁') (h₂ : validateSystemApp cap s₂ = some s₂')
    (hn : s₁.nodes = s₂.nodes) (he : s₁.edges = s₂.edges)
    (hp : s₁.pressureDrop = s₂.pressureDrop) :
    s₁'.validation = s₂'.validation ∧ validateSystemApp cap s₁' = some s₁' := by
  simp only [validateSystemApp, Option.map_eq_some'] at h₁ h₂
  obtain ⟨r₁, hr₁, rfl⟩ := h₁
  obtain ⟨r₂, hr₂, rfl⟩ := h₂
  have hr₁' := hr₁
  rw [hn, he, hp] at hr₁'
  have hr : r₁ = r₂ := Option.some.inj (hr₁'.symm.trans hr₂)
  subst hr
  refine ⟨rfl, ?_⟩
  show (validateSystem (cap s₁.pressureDrop) s₁.nodes s₁.edges).map
      (fun results => ({ s₁ with validation := results } : AppState)) =
    some { s₁ with validation := r₁ }
  rw [hr₁]
  rfl

/-- The sample snapshot before validation. -/
def sampleState : AppState := ⟨sampleNodes, sampleEdges, 1/2, []⟩

/-- The sample snapshot after validation. -/
def sampleState' : AppState :=
  ⟨sampleNodes, sampleEdges, 1/2, [("e1", ⟨true, 40000, 77000, none⟩)]⟩

/-- A concrete state-level capacity kernel for witnesses. -/
def sampleKernel : ℚ → PipeSize → ℚ → ℤ := fun _ _ _ => 77000

/-- Witness for C9 on the sample snapshot. -/
theorem validateSystem_preserves_graph_witness :
    sampleState'.nodes = sampleState.nodes ∧ sampleState'.edges = sampleState.edges ∧
      sampleState'.pressureDrop = sampleState.pressureDrop :=
  validateSystem_preserves_graph sampleKernel sampleState sampleState' rfl

/-- Witness for C8 on the sample snapshot. -/
theorem validateSystem_deterministic_idempotent_witness :
    sampleState'.validation = sampleState'.validation ∧
      validateSystemApp sampleKernel sampleState' = some sampleState' :=
  validateSystem_deterministic_idempotent sampleKernel sampleState sampleState
    sampleState' sampleState' rfl rfl rfl rfl rfl

/-! ## Claim C10: the edge-insertion service preserves the invariants -/

/-- Helper: members of a list with pairwise-distinct ids are determined by
their id. -/
theorem node_eq_of_id_eq {l : List AppNode} (h : (l.map AppNode.id).Nodup)
    {a b : AppNode} (ha : a ∈ l) (hb : b ∈ l) (hid : a.id = b.id) : a = b :=
  List.inj_on_of_nodup_map h ha hb hid

/-- C10.  On a node set with distinct ids, every graph state reachable through
`handleAddEdge` preserves the structural invariants the validator assumes:
at most one inbound edge per node, at most two outbound edges per `JUNCTION`,
no outbound edge from an `APPLIANCE`, and no self-loop. -/
theorem handleAddEdge_preserves_invariants
    (nodes : List AppNode) (edges : List AppEdge)
    (fromId toId newId : String) (selectedPipeSize : PipeSize)
    (hnd : (nodes.map AppNode.id).Nodup)
    (hinv : GraphInvariants nodes edges) :
    GraphInvariants nodes (handleAddEdge nodes edges fromId toId newId selectedPipeSize) := by
  obtain ⟨hinb, hjun, happ, hloop⟩ := hinv
  unfold handleAddEdge
  split
  · exact ⟨hinb, hjun, happ, hloop⟩
  next hneq =>
    split
    · exact ⟨hinb, hjun, happ, hloop⟩
    next fromNode hfn =>
      split
      · exact ⟨hinb, hjun, happ, hloop⟩
      next hto =>
        split
        · exact ⟨hinb, hjun, happ, hloop⟩
        next hjg =>
          split
          · exact ⟨hinb, hjun, happ, hloop⟩
          next hag =>
            have hfn_mem : fromNode ∈ nodes := List.mem_of_find?_eq_some hfn
            have hfn_id : fromNode.id = fromId := by simpa using List.find?_some hfn
            have hto_none : ∀ e ∈ edges, e.to_ ≠ toId := by
              intro e hemem
              have hnone : edges.find? (fun e => decide (e.to_ = toId)) = none := by
                cases hcase : edges.find? (fun e => decide (e.to_ = toId)) with
                | none => rfl
                | some x => exact absurd (by rw [hcase]; rfl) hto
              have := List.find?_eq_none.mp hnone e hemem
              simpa using this
            refine ⟨?_, ?_, ?_, ?_⟩
            · rw [List.pairwise_append]
              refine ⟨hinb, List.pairwise_singleton _ _, ?_⟩
              intro e hemem b hb
              rw [List.mem_singleton.mp hb]
              exact hto_none e hemem
            · intro n hn hntype
              rw [List.filter_append, List.length_append]
              by_cases hid : fromId = n.id
              · have hn_eq : n = fromNode :=
                  node_eq_of_id_eq hnd hn hfn_mem (hid ▸ hfn_id).symm
                have hcount : ¬ 2 ≤ (edges.filter (fun e => decide (e.from_ = fromId))).length := by
                  intro hc
                  exact hjg ⟨hn_eq ▸ hntype, hc⟩
                have hsingle :
                    (List.filter (fun e => decide (e.from_ = n.id))
                      [(⟨newId, fromId, toId, selectedPipeSize, 10⟩ : AppEdge)]).length ≤ 1 := by
                  simp [List.filter]
                  split <;> simp
                have hold : (edges.filter (fun e => decide (e.from_ = n.id))).length ≤ 1 := by
                  rw [← hid]
                  omega
                omega
              · have hsingle :
                    (List.filter (fun e => decide (e.from_ = n.id))
                      [(⟨newId, fromId, toId, selectedPipeSize, 10⟩ : AppEdge)]).length = 0 := by
                  simp [List.filter, hid]
                have hold := hjun n hn hntype
                omega
            · intro n hn hntype e hemem
              rcases List.mem_append.mp hemem with hold | hnew
              · exact happ n hn hntype e hold
              · rw [List.mem_singleton.mp hnew]
                intro hcontra
                have hcontra' : fromId = n.id := hcontra
                have hn_eq : n = fromNode :=
                  node_eq_of_id_eq hnd hn hfn_mem (hfn_id.trans hcontra').symm
                exact hag (hn_eq ▸ hntype)
            · intro e hemem
              rcases List.mem_append.mp hemem with hold | hnew
              · exact hloop e hold
              · rw [List.mem_singleton.mp hnew]
                exact hneq

/-- Witness for C10: adding a pipe from the meter `a` to a fresh id `c` on the
sample system preserves all four structural invariants. -/
theorem handleAddEdge_preserves_invariants_witness :
    GraphInvariants sampleNodes
      (handleAddEdge sampleNodes sampleEdges "a" "c" "e2" PipeSize.HALF) :=
  handleAddEdge_preserves_invariants sampleNodes sampleEdges "a" "c" "e2" PipeSize.HALF
    (by decide) (by unfold GraphInvariants; decide)

/-! ## Claim C6: degenerate lengths -/

/-- C6.  For every pipe size, every pressure drop and every length that is
zero or negative, `calculateCapacity` returns 0 — the guard fires before any
arithmetic, so no error and no non-zero value can be produced. -/
theorem calculateCapacity_nonpositive_length (pressureDrop : ℚ) (size : PipeSize)
    (length : ℚ) (hlen : length ≤ 0) :
    calculateCapacity pressureDrop size length = 0 := by
  simp [calculateCapacity, hlen]

/-- Witness for C6 at zero and at a negative length. -/
theorem calculateCapacity_nonpositive_length_witness :
    calculateCapacity (1/2) PipeSize.HALF 0 = 0 ∧
      calculateCapacity (1/2) PipeSize.HALF (-3) = 0 :=
  ⟨calculateCapacity_nonpositive_length (1/2) PipeSize.HALF 0 (by norm_num),
   calculateCapacity_nonpositive_length (1/2) PipeSize.HALF (-3) (by norm_num)⟩

/-! ## Claim C7: monotonicity of the capacity formula

The real-valued power `x ^ (1/exp)` is compared against rational bounds by
squeezing the irrational exponent `1/exp` between rational exponents `p/q`
and reducing `x ^ (p/q) ≤ M` to the integer-power comparison `x ^ p ≤ M ^ q`.
-/

/-- The real-valued capacity kernel of `calculateCapacity` before flooring. -/
noncomputable def capKernel (pressureDrop : ℚ) (size : PipeSize) (length : ℚ) : ℝ :=
  (((pressureDrop : ℝ) / (length : ℝ)) / ((PIPE_SPECS size).coeff : ℝ)) ^
    ((1 : ℝ) / ((PIPE_SPECS size).exp : ℝ))

/-- On positive lengths, `calculateCapacity` is the floored and rescaled
kernel. -/
theorem calculateCapacity_pos_length (pressureDrop : ℚ) (size : PipeSize) (length : ℚ)
    (hlen : 0 < length) :
    calculateCapacity pressureDrop size length =
      ⌊capKernel pressureDrop size length⌋ * 1000 := by
  rw [calculateCapacity, if_neg (not_le.mpr hlen)]
  rfl

/-- Helper: upper-bound a real power by a rational-exponent overestimate. -/
theorem rpow_le_of_pow_le {x M : ℝ} {p q : ℕ} {e : ℝ}
    (hx : 1 ≤ x) (hM : 0 ≤ M) (hq : 0 < q)
    (he : e ≤ (p : ℝ) / (q : ℝ)) (hpow : x ^ p ≤ M ^ q) :
    x ^ e ≤ M := by
  have hx0 : (0 : ℝ) ≤ x := le_trans zero_le_one hx
  have hqR : ((q : ℝ)) ≠ 0 := by positivity
  have hkey : (x ^ ((p : ℝ) / (q : ℝ))) ^ q = x ^ p := by
    rw [← Real.rpow_natCast (x ^ ((p : ℝ) / (q : ℝ))) q, ← Real.rpow_mul hx0,
      div_mul_cancel₀ _ hqR, Real.rpow_natCast]
  have h2 : x ^ ((p : ℝ) / (q : ℝ)) ≤ M := by
    refine le_of_pow_le_pow_left₀ (Nat.pos_iff_ne_zero.mp hq) hM ?_
    rw [hkey]
    exact hpow
  exact le_trans (Real.rpow_le_rpow_of_exponent_le hx he) h2

/-- Helper: lower-bound a real power by a rational-exponent underestimate. -/
theorem le_rpow_of_pow_le {x M : ℝ} {p q : ℕ} {e : ℝ}
    (hx : 1 ≤ x) (hM : 0 ≤ M) (hq : 0 < q)
    (he : (p : ℝ) / (q : ℝ) ≤ e) (hpow : M ^ q ≤ x ^ p) :
    M ≤ x ^ e := by
  have hx0 : (0 : ℝ) ≤ x := le_trans zero_le_one hx
  have hqR : ((q : ℝ)) ≠ 0 := by positivity
  have hkey : (x ^ ((p : ℝ) / (q : ℝ))) ^ q = x ^ p := by
    rw [← Real.rpow_natCast (x ^ ((p : ℝ) / (q : ℝ))) q, ← Real.rpow_mul hx0,
      div_mul_cancel₀ _ hqR, Real.rpow_natCast]
  have h2 : M ≤ x ^ ((p : ℝ) / (q : ℝ)) := by
    refine le_of_pow_le_pow_left₀ (Nat.pos_iff_ne_zero.mp hq)
      (Real.rpow_nonneg hx0 _) ?_
    rw [hkey]
    exact hpow
  exact le_trans h2 (Real.rpow_le_rpow_of_exponent_le hx he)

/-- Helper: strictly upper-bound a real power by a rational-exponent
overestimate. -/
theorem rpow_lt_of_pow_lt {x M : ℝ} {p q : ℕ} {e : ℝ}
    (hx : 1 ≤ x) (hM : 0 ≤ M) (hq : 0 < q)
    (he : e ≤ (p : ℝ) / (q : ℝ)) (hpow : x ^ p < M ^ q) :
    x ^ e < M := by
  have hx0 : (0 : ℝ) ≤ x := le_trans zero_le_one hx
  have hqR : ((q : ℝ)) ≠ 0 := by positivity
  have hkey : (x ^ ((p : ℝ) / (q : ℝ))) ^ q = x ^ p := by
    rw [← Real.rpow_natCast (x ^ ((p : ℝ) / (q : ℝ))) q, ← Real.rpow_mul hx0,
      div_mul_cancel₀ _ hqR, Real.rpow_natCast]
  have h2 : x ^ ((p : ℝ) / (q : ℝ)) < M := by
    refine lt_of_pow_lt_pow_left₀ q hM ?_
    rw [hkey]
    exact hpow
  exact lt_of_le_of_lt (Real.rpow_le_rpow_of_exponent_le hx he) h2

/-- Helper: comparing capacities through their kernels. -/
theorem calculateCapacity_le_of_kernel_le {pd₁ pd₂ len₁ len₂ : ℚ} {s₁ s₂ : PipeSize}
    (h₁ : 0 < len₁) (h₂ : 0 < len₂)
    (h : capKernel pd₁ s₁ len₁ ≤ capKernel pd₂ s₂ len₂) :
    calculateCapacity pd₁ s₁ len₁ ≤ calculateCapacity pd₂ s₂ len₂ := by
  rw [calculateCapacity_pos_length _ _ _ h₁, calculateCapacity_pos_length _ _ _ h₂]
  exact mul_le_mul_of_nonneg_right (Int.floor_mono h) (by norm_num)

/-- The length-monotonicity half of C7: for a fixed size and positive pressure
drop, capacity is monotonically non-increasing in the (positive) length. -/
theorem calculateCapacity_antitone_length (size : PipeSize) (pd L₁ L₂ : ℚ)
    (hpd : 0 < pd) (hL₁ : 0 < L₁) (hL : L₁ ≤ L₂) :
    calculateCapacity pd size L₂ ≤ calculateCapacity pd size L₁ := by
  have hL₂ : 0 < L₂ := lt_of_lt_of_le hL₁ hL
  refine calculateCapacity_le_of_kernel_le hL₂ hL₁ ?_
  unfold capKernel
  have hpdR : (0 : ℝ) < (pd : ℝ) := by exact_mod_cast hpd
  have hL₁R : (0 : ℝ) < (L₁ : ℝ) := by exact_mod_cast hL₁
  have hL₂R : (0 : ℝ) < (L₂ : ℝ) := by exact_mod_cast hL₂
  have hLR : (L₁ : ℝ) ≤ (L₂ : ℝ) := by exact_mod_cast hL
  have hcoeff : (0 : ℝ) < ((PIPE_SPECS size).coeff : ℝ) := by
    cases size <;> norm_num [PIPE_SPECS]
  have hexp : (0 : ℝ) ≤ (1 : ℝ) / ((PIPE_SPECS size).exp : ℝ) := by
    cases size <;> norm_num [PIPE_SPECS]
  refine Real.rpow_le_rpow (by positivity) ?_ hexp
  gcongr

/-- Step `3/8" ≤ 1/2"` of the size chain at the reference operating point
(pressure drop 0.5 in. w.c., length 10 ft), split at kernel value 60. -/
theorem capacity_step₁ :
    calculateCapacity (1/2) PipeSize.THREE_EIGHTHS 10 ≤
      calculateCapacity (1/2) PipeSize.HALF 10 := by
  refine calculateCapacity_le_of_kernel_le (by norm_num) (by norm_num)
    (le_trans (b := (60 : ℝ)) ?_ ?_)
  · unfold capKernel
    refine rpow_le_of_pow_le (p := 247) (q := 500) ?_ (by norm_num) (by norm_num) ?_ ?_
    · norm_num [PIPE_SPECS]
    · norm_num [PIPE_SPECS]
    · norm_num [PIPE_SPECS]
  · unfold capKernel
    refine le_rpow_of_pow_le (p := 23) (q := 50) ?_ (by norm_num) (by norm_num) ?_ ?_
    · norm_num [PIPE_SPECS]
    · norm_num [PIPE_SPECS]
    · norm_num [PIPE_SPECS]

/-- Step `1/2" ≤ 3/4"` of the size chain, split at kernel value 100. -/
theorem capacity_step₂ :
    calculateCapacity (1/2) PipeSize.HALF 10 ≤
      calculateCapacity (1/2) PipeSize.THREE_QUARTERS 10 := by
  refine calculateCapacity_le_of_kernel_le (by norm_num) (by norm_num)
    (le_trans (b := (100 : ℝ)) ?_ ?_)
  · unfold capKernel
    refine rpow_le_of_pow_le (p := 58) (q := 125) ?_ (by norm_num) (by norm_num) ?_ ?_
    · norm_num [PIPE_SPECS]
    · norm_num [PIPE_SPECS]
    · norm_num [PIPE_SPECS]
  · unfold capKernel
    refine le_rpow_of_pow_le (p := 49) (q := 100) ?_ (by norm_num) (by norm_num) ?_ ?_
    · norm_num [PIPE_SPECS]
    · norm_num [PIPE_SPECS]
    · norm_num [PIPE_SPECS]

/-- Step `3/4" ≤ 1"` of the size chain, split at kernel value 300. -/
theorem capacity_step₃ :
    calculateCapacity (1/2) PipeSize.THREE_QUARTERS 10 ≤
      calculateCapacity (1/2) PipeSize.ONE 10 := by
  refine calculateCapacity_le_of_kernel_le (by norm_num) (by norm_num)
    (le_trans (b := (300 : ℝ)) ?_ ?_)
  · unfold capKernel
    refine rpow_le_of_pow_le (p := 1) (q := 2) ?_ (by norm_num) (by norm_num) ?_ ?_
    · norm_num [PIPE_SPECS]
    · norm_num [PIPE_SPECS]
    · norm_num [PIPE_SPECS]
  · unfold capKernel
    refine le_rpow_of_pow_le (p := 11) (q := 20) ?_ (by norm_num) (by norm_num) ?_ ?_
    · norm_num [PIPE_SPECS]
    · norm_num [PIPE_SPECS]
    · norm_num [PIPE_SPECS]

/-- Step `1" ≤ 1-1/4"` of the size chain, split at kernel value 500. -/
theorem capacity_step₄ :
    calculateCapacity (1/2) PipeSize.ONE 10 ≤
      calculateCapacity (1/2) PipeSize.ONE_AND_QUARTER 10 := by
  refine calculateCapacity_le_of_kernel_le (by norm_num) (by norm_num)
    (le_trans (b := (500 : ℝ)) ?_ ?_)
  · unfold capKernel
    refine rpow_le_of_pow_le (p := 57) (q := 100) ?_ (by norm_num) (by norm_num) ?_ ?_
    · norm_num [PIPE_SPECS]
    · norm_num [PIPE_SPECS]
    · norm_num [PIPE_SPECS]
  · unfold capKernel
    refine le_rpow_of_pow_le (p := 1) (q := 2) ?_ (by norm_num) (by norm_num) ?_ ?_
    · norm_num [PIPE_SPECS]
    · norm_num [PIPE_SPECS]
    · norm_num [PIPE_SPECS]

/-- C7 (amended).  For any fixed pipe size and positive pressure drop,
`calculateCapacity` is monotonically non-increasing in the (positive) length;
and at the reference operating point (pressure drop 0.5 in. w.c., length
10 ft) it is monotonically non-decreasing in the pipe size's ordinal rank in
`PIPE_ORDER`.  (Rank monotonicity does not hold for *every* positive length —
see the counterexample theorem.) -/
theorem calculateCapacity_monotonicity :
    (∀ (size : PipeSize) (pd L₁ L₂ : ℚ), 0 < pd → 0 < L₁ → L₁ ≤ L₂ →
      calculateCapacity pd size L₂ ≤ calculateCapacity pd size L₁) ∧
    (∀ i j : Fin PIPE_ORDER.length, i ≤ j →
      calculateCapacity (1/2) (PIPE_ORDER.get i) 10 ≤
        calculateCapacity (1/2) (PIPE_ORDER.get j) 10) := by
  constructor
  · intro size pd L₁ L₂ hpd hL₁ hL
    exact calculateCapacity_antitone_length size pd L₁ L₂ hpd hL₁ hL
  · have h₁ := capacity_step₁
    have h₂ := capacity_step₂
    have h₃ := capacity_step₃
    have h₄ := capacity_step₄
    intro i j hij
    fin_cases i <;> fin_cases j <;>
      first
        | exact absurd hij (by decide)
        | exact le_refl _
        | exact h₁
        | exact h₂
        | exact h₃
        | exact h₄
        | exact le_trans h₁ h₂
        | exact le_trans h₁ (le_trans h₂ h₃)
        | exact le_trans h₁ (le_trans h₂ (le_trans h₃ h₄))
        | exact le_trans h₂ h₃
        | exact le_trans h₂ (le_trans h₃ h₄)
        | exact le_trans h₃ h₄

/-- Witness for the amended C7: doubling the sample pipe's length cannot raise
its capacity, and the smallest pipe cannot beat the largest at the reference
operating point. -/
theorem calculateCapacity_monotonicity_witness :
    calculateCapacity (1/2) PipeSize.HALF 20 ≤ calculateCapacity (1/2) PipeSize.HALF 10 ∧
      calculateCapacity (1/2) PipeSize.THREE_EIGHTHS 10 ≤
        calculateCapacity (1/2) PipeSize.ONE_AND_QUARTER 10 :=
  ⟨calculateCapacity_monotonicity.1 PipeSize.HALF (1/2) 10 20 (by norm_num) (by norm_num)
      (by norm_num),
   calculateCapacity_monotonicity.2 ⟨0, by decide⟩ ⟨4, by decide⟩ (by decide)⟩

/-- C7 (counterexample).  Rank monotonicity fails for extreme length-to-drop
ratios: at pressure drop 0.5 and length `10⁻³²` (a positive length, hence in
the claim's quantified domain) the `3/8"` pipe — rank 0 — receives a strictly
larger computed capacity than the `1/2"` pipe — rank 1 — because the smaller
pipe's larger fitted exponent `1/exp` dominates once the kernel base is this
large. -/
theorem calculateCapacity_rank_monotonicity_fails :
    PIPE_ORDER.indexOf PipeSize.THREE_EIGHTHS < PIPE_ORDER.indexOf PipeSize.HALF ∧
    calculateCapacity (1/2) PipeSize.HALF (1/10^32) <
      calculateCapacity (1/2) PipeSize.THREE_EIGHTHS (1/10^32) := by
  constructor
  · decide
  · have hlen : (0 : ℚ) < 1/10^32 := by norm_num
    rw [calculateCapacity_pos_length _ _ _ hlen, calculateCapacity_pos_length _ _ _ hlen]
    have hA : ((4 : ℝ) * 10^17) ≤ capKernel (1/2) PipeSize.THREE_EIGHTHS (1/10^32) := by
      unfold capKernel
      refine le_rpow_of_pow_le (p := 49) (q := 100) ?_ (by norm_num) (by norm_num) ?_ ?_
      · norm_num [PIPE_SPECS]
      · norm_num [PIPE_SPECS]
      · norm_num [PIPE_SPECS]
    have hB : capKernel (1/2) PipeSize.HALF (1/10^32) < ((4 : ℝ) * 10^17) := by
      unfold capKernel
      refine rpow_lt_of_pow_lt (p := 579) (q := 1250) ?_ (by norm_num) (by norm_num) ?_ ?_
      · norm_num [PIPE_SPECS]
      · norm_num [PIPE_SPECS]
      · norm_num [PIPE_SPECS]
    have hfA : ((4 * 10^17 : ℤ)) ≤ ⌊capKernel (1/2) PipeSize.THREE_EIGHTHS (1/10^32)⌋ := by
      rw [Int.le_floor]
      exact_mod_cast hA
    have hfB : ⌊capKernel (1/2) PipeSize.HALF (1/10^32)⌋ < (4 * 10^17 : ℤ) := by
      rw [Int.floor_lt]
      exact_mod_cast hB
    exact mul_lt_mul_of_pos_right (lt_of_lt_of_le hfB hfA) (by norm_num)
